import Mathlib

/-!
Verification of the reconciliation/normalization engine of the
automation_reports repository against its natural-language specification.

The Lean definitions below are shallow embeddings of the Python source
(src/utils.py, src/data_processor.py, src/scheduler_handler.py):
Python ints become Nat/Int, dictionaries become association lists,
fallible code returns Option/Except, and the small value universe that the
relevant code actually manipulates (None, str, int, bool, datetime, list)
becomes an inductive type with Python truthiness and str() rendering.
-/

namespace AutomationReports

/-! ## BitmaskConverter (src/utils.py, lines 7-74) -/

/-- Embedding of BitmaskConverter.days_of_week_to_bitmask.
The Python dict bitmask_map sends day d (1..7) to the flag 2^(d-1)
(Sunday=0x01 ... Saturday=0x40); days outside the dict keys are skipped by
the comprehension's membership guard. -/
def days_of_week_to_bitmask (days_of_week : List Nat) : Nat :=
  ((days_of_week.filter (fun d => decide (1 ≤ d) && decide (d ≤ 7))).map
    (fun d => 2 ^ (d - 1))).sum

/-- Embedding of BitmaskConverter.bitmask_to_days_of_week.
The Python loop iterates the dict items in insertion order (flags 0x01..0x40,
days 1..7) and appends the day when bitmask AND flag is truthy (nonzero).
The guard for a None argument (which returns the empty list) is outside the
integer domain modelled here. -/
def bitmask_to_days_of_week (bitmask : Nat) : List Nat :=
  [1, 2, 3, 4, 5, 6, 7].filter (fun d => (bitmask &&& 2 ^ (d - 1)) != 0)

/-- Embedding of BitmaskConverter.days_of_month_to_bitmask.
Python returns the sum of 2 ** (day - 1), or the bool False for an empty
list; False equals 0 in Python, modelled as the Nat 0.  (For a nonpositive
Python int day the expression 2 ** (day - 1) would be a float; the codec's
domain is ordinals from 1, which is all any caller passes, and there the
formula below coincides.) -/
def days_of_month_to_bitmask (days_of_month : List Nat) : Nat :=
  if days_of_month.isEmpty then 0
  else (days_of_month.map (fun d => 2 ^ (d - 1))).sum

/-- Embedding of BitmaskConverter.bitmask_to_days_of_month.
A zero bitmask appends the bitmask itself (0); otherwise days 1..31 are
filtered by the test of bitmask AND (1 shifted left by day - 1) (the
conjunct with the truthiness of bitmask is redundant in that branch but
kept from the source). -/
def bitmask_to_days_of_month (bitmask : Nat) : List Nat :=
  if bitmask = 0 then [0]
  else (List.range' 1 31).filter
    (fun d => bitmask != 0 && ((bitmask &&& (1 <<< (d - 1))) != 0))

/-- Embedding of BitmaskConverter.months_of_year_to_bitmask; same shape as
the month-day encoder (bool False for the empty list is the Nat 0). -/
def months_of_year_to_bitmask (months_of_year : List Nat) : Nat :=
  if months_of_year.isEmpty then 0
  else (months_of_year.map (fun m => 2 ^ (m - 1))).sum

/-- Embedding of BitmaskConverter.bitmask_to_months_of_year.
Months 1..12 are filtered by the truthiness of bitmask and of
bitmask AND (1 shifted left by month - 1); there is no zero special case,
so a zero bitmask yields the empty list. -/
def bitmask_to_months_of_year (bitmask : Nat) : List Nat :=
  (List.range' 1 12).filter
    (fun m => bitmask != 0 && ((bitmask &&& (1 <<< (m - 1))) != 0))

/-! ### Bit-level facts used for the round-trip claim -/

/-- A bit of n is set exactly when its index appears in n.bitIndices. -/
theorem testBit_eq_mem_bitIndices (n : Nat) : ∀ k : Nat,
    n.testBit k = true ↔ k ∈ n.bitIndices := by
  induction n using Nat.binaryRec with
  | z => intro k; simp
  | f b n ih =>
    intro k
    cases k with
    | zero =>
      rw [Nat.testBit_bit_zero]
      cases b
      · simp [Nat.bitIndices_bit_false]
      · simp [Nat.bitIndices_bit_true]
    | succ k =>
      rw [Nat.testBit_bit_succ, ih k]
      cases b
      · rw [Nat.bitIndices_bit_false]
        simp only [List.mem_map]
        constructor
        · intro h; exact ⟨k, h, rfl⟩
        · rintro ⟨a, ha, hak⟩
          have hak' : a = k := by omega
          rw [← hak']; exact ha
      · rw [Nat.bitIndices_bit_true]
        simp only [List.mem_cons, List.mem_map]
        constructor
        · intro h; exact Or.inr ⟨k, h, rfl⟩
        · rintro (h | ⟨a, ha, hak⟩)
          · exact absurd h (by omega)
          · have hak' : a = k := by omega
            rw [← hak']; exact ha

/-- A bit of a sum of distinct powers of two is set exactly when its index is
one of the exponents. -/
theorem testBit_sum_two_pow {l : List Nat} (hl : l.Nodup) (k : Nat) :
    ((l.map (fun i => 2 ^ i)).sum.testBit k = true) ↔ k ∈ l := by
  classical
  have hperm : List.Perm (l.toFinset.sort (· ≤ ·)) l :=
    (Finset.sort_perm_toList _ _).trans (List.toFinset_toList hl)
  have hsum : ((l.toFinset.sort (· ≤ ·)).map (fun i => 2 ^ i)).sum
      = (l.map (fun i => 2 ^ i)).sum :=
    (hperm.map _).sum_eq
  have hsorted : (l.toFinset.sort (· ≤ ·)).Sorted (· < ·) :=
    Finset.sort_sorted_lt _
  rw [← hsum, testBit_eq_mem_bitIndices, Nat.bitIndices_twoPowsum hsorted]
  exact hperm.mem_iff

/-- Conversion between the and-mask test used by the decoders and testBit. -/
theorem and_two_pow_ne_zero (n i : Nat) :
    ((n &&& 2 ^ i) ≠ 0) ↔ n.testBit i = true := by
  rw [Nat.and_two_pow]
  have h2 : (2 : Nat) ^ i ≠ 0 := Nat.pos_iff_ne_zero.mp (Nat.pos_pow_of_pos i (by norm_num))
  cases h : n.testBit i
  · simp
  · simp [h2]

theorem sum_two_pow_pred_testBit {S : List Nat} (hnd : S.Nodup)
    (hlo : ∀ d ∈ S, 1 ≤ d) (k : Nat) :
    ((S.map (fun d => 2 ^ (d - 1))).sum.testBit k = true) ↔ (k + 1) ∈ S := by
  have hmap : S.map (fun d => 2 ^ (d - 1))
      = (S.map (fun d => d - 1)).map (fun i => 2 ^ i) := by
    rw [List.map_map]; rfl
  have hnd' : (S.map (fun d => d - 1)).Nodup := by
    refine List.Nodup.map_on ?_ hnd
    intro x hx y hy hxy
    have hx1 := hlo x hx
    have hy1 := hlo y hy
    omega
  rw [hmap, testBit_sum_two_pow hnd' k, List.mem_map]
  constructor
  · rintro ⟨d, hd, hdk⟩
    have h1 := hlo d hd
    have : d = k + 1 := by omega
    rw [← this]; exact hd
  · intro h
    exact ⟨k + 1, h, rfl⟩

/-- The and-mask membership condition shared by the three decoders, stated
for the sum the encoders produce. -/
theorem decode_cond {S : List Nat} (hnd : S.Nodup) (hlo : ∀ d ∈ S, 1 ≤ d)
    {d : Nat} (hd1 : 1 ≤ d) :
    (((S.map (fun d => 2 ^ (d - 1))).sum &&& (1 <<< (d - 1))) ≠ 0) ↔ d ∈ S := by
  rw [Nat.one_shiftLeft, and_two_pow_ne_zero, sum_two_pow_pred_testBit hnd hlo]
  have hd' : d - 1 + 1 = d := by omega
  rw [hd']

/-- Membership in the literal weekday list of the decoder. -/
theorem mem_weekday_list (d : Nat) :
    d ∈ [1, 2, 3, 4, 5, 6, 7] ↔ 1 ≤ d ∧ d ≤ 7 := by
  simp only [List.mem_cons, List.not_mem_nil, or_false]
  omega

theorem week_roundtrip {S : List Nat} (hnd : S.Nodup)
    (hdom : ∀ d ∈ S, 1 ≤ d ∧ d ≤ 7) (d : Nat) :
    d ∈ bitmask_to_days_of_week (days_of_week_to_bitmask S) ↔ d ∈ S := by
  unfold bitmask_to_days_of_week days_of_week_to_bitmask
  have hfilter : S.filter (fun d => decide (1 ≤ d) && decide (d ≤ 7)) = S := by
    refine List.filter_eq_self.mpr ?_
    intro a ha
    have := hdom a ha
    simp [this.1, this.2]
  rw [hfilter]
  simp only [List.mem_filter, mem_weekday_list, bne_iff_ne, ne_eq]
  have hcond : ∀ e : Nat, 1 ≤ e →
      (¬ ((S.map (fun x => 2 ^ (x - 1))).sum &&& 2 ^ (e - 1)) = 0 ↔ e ∈ S) := by
    intro e he
    rw [← ne_eq, ← Nat.one_shiftLeft]
    exact decode_cond hnd (fun a ha => (hdom a ha).1) he
  constructor
  · rintro ⟨⟨h1, _⟩, hc⟩
    exact (hcond d h1).mp hc
  · intro hd
    have h := hdom d hd
    exact ⟨⟨h.1, h.2⟩, (hcond d h.1).mpr hd⟩

theorem sum_two_pow_pred_pos {S : List Nat} (hne : S ≠ []) :
    0 < (S.map (fun d => 2 ^ (d - 1))).sum := by
  cases S with
  | nil => exact absurd rfl hne
  | cons a t =>
    simp only [List.map_cons, List.sum_cons]
    exact Nat.lt_of_lt_of_le (Nat.pos_pow_of_pos (a - 1) (by norm_num))
      (Nat.le_add_right _ _)

theorem monthday_roundtrip {S : List Nat} (hnd : S.Nodup) (hne : S ≠ [])
    (hdom : ∀ d ∈ S, 1 ≤ d ∧ d ≤ 31) (d : Nat) :
    d ∈ bitmask_to_days_of_month (days_of_month_to_bitmask S) ↔ d ∈ S := by
  unfold bitmask_to_days_of_month days_of_month_to_bitmask
  have hemp : S.isEmpty = false := by
    cases S with
    | nil => exact absurd rfl hne
    | cons a t => rfl
  have hpos := sum_two_pow_pred_pos hne
  rw [hemp]
  simp only [Bool.false_eq_true, if_false]
  rw [if_neg (by omega)]
  simp only [List.mem_filter, List.mem_range'_1, Bool.and_eq_true, bne_iff_ne, ne_eq]
  constructor
  · rintro ⟨⟨hd1, _⟩, _, hc⟩
    exact (decode_cond hnd (fun a ha => (hdom a ha).1) hd1).mp hc
  · intro hd
    have h := hdom d hd
    exact ⟨⟨h.1, by omega⟩, by omega,
      (decode_cond hnd (fun a ha => (hdom a ha).1) h.1).mpr hd⟩

theorem months_roundtrip {S : List Nat} (hnd : S.Nodup) (hne : S ≠ [])
    (hdom : ∀ m ∈ S, 1 ≤ m ∧ m ≤ 12) (m : Nat) :
    m ∈ bitmask_to_months_of_year (months_of_year_to_bitmask S) ↔ m ∈ S := by
  unfold bitmask_to_months_of_year months_of_year_to_bitmask
  have hemp : S.isEmpty = false := by
    cases S with
    | nil => exact absurd rfl hne
    | cons a t => rfl
  have hpos := sum_two_pow_pred_pos hne
  rw [hemp]
  simp only [Bool.false_eq_true, if_false]
  simp only [List.mem_filter, List.mem_range'_1, Bool.and_eq_true, bne_iff_ne, ne_eq]
  constructor
  · rintro ⟨⟨hm1, _⟩, _, hc⟩
    exact (decode_cond hnd (fun a ha => (hdom a ha).1) hm1).mp hc
  · intro hm
    have h := hdom m hm
    exact ⟨⟨h.1, by omega⟩, by omega,
      (decode_cond hnd (fun a ha => (hdom a ha).1) h.1).mpr hm⟩

/-- C1: for every valid non-empty set S over weekdays (ordinals 1-7),
month-days (ordinals 1-31), or months (ordinals 1-12), decoding the bitmask
produced by encoding S yields exactly S, as set equality on the returned
list: every ordinal is a member of the decoded list exactly when it is a
member of S. -/
theorem c1_bitmask_roundtrip (S : List Nat) (hnd : S.Nodup) (hne : S ≠ []) :
    ((∀ d ∈ S, 1 ≤ d ∧ d ≤ 7) →
      ∀ d, d ∈ bitmask_to_days_of_week (days_of_week_to_bitmask S) ↔ d ∈ S) ∧
    ((∀ d ∈ S, 1 ≤ d ∧ d ≤ 31) →
      ∀ d, d ∈ bitmask_to_days_of_month (days_of_month_to_bitmask S) ↔ d ∈ S) ∧
    ((∀ m ∈ S, 1 ≤ m ∧ m ≤ 12) →
      ∀ m, m ∈ bitmask_to_months_of_year (months_of_year_to_bitmask S) ↔ m ∈ S) :=
  ⟨fun hdom d => week_roundtrip hnd hdom d,
   fun hdom d => monthday_roundtrip hnd hne hdom d,
   fun hdom m => months_roundtrip hnd hne hdom m⟩

/-- Witness for c1_bitmask_roundtrip at the concrete set S of ordinals 5 and 2. -/
theorem c1_bitmask_roundtrip_witness :
    (3 ∈ bitmask_to_days_of_week (days_of_week_to_bitmask [5, 2]) ↔ 3 ∈ [5, 2]) ∧
    (5 ∈ bitmask_to_days_of_month (days_of_month_to_bitmask [5, 2]) ↔ 5 ∈ [5, 2]) ∧
    (2 ∈ bitmask_to_months_of_year (months_of_year_to_bitmask [5, 2]) ↔ 2 ∈ [5, 2]) := by
  have h := c1_bitmask_roundtrip [5, 2] (by decide) (by decide)
  exact ⟨h.1 (by decide) 3, h.2.1 (by decide) 5, h.2.2 (by decide) 2⟩

/-! ## Record merging (src/data_processor.py, merge_with_existing_data,
lines 289-311)

A Python dict is modelled as an association list whose keys are distinct
(recordNodupKeys below): iteration order is insertion order, item
assignment keeps the position of an existing key and appends a fresh key at
the end, which is exactly how dict.update behaves. -/

/-- Association-list record standing for one Python dict. -/
abbrev Record (V : Type) : Type := List (String × V)

/-- Lookup of a key, as dict.get: the first (for an actual dict, only)
binding wins, absence gives none. -/
def recordGet {V : Type} : Record V → String → Option V
  | [], _ => none
  | (k', v') :: rest, k => if k' = k then some v' else recordGet rest k

/-- Keys of a record in order. -/
def recordKeys {V : Type} (r : Record V) : List String :=
  r.map Prod.fst

/-- A record with distinct keys: the invariant every Python dict satisfies. -/
abbrev recordNodupKeys {V : Type} (r : Record V) : Prop :=
  (recordKeys r).Nodup

/-- Single item assignment, as d[k] = v inside dict.update: replace the
value at the first occurrence of k, keeping its position, or append the new
binding at the end when k is absent. -/
def recordSet {V : Type} : Record V → String → V → Record V
  | [], k, v => [(k, v)]
  | (k', v') :: rest, k, v =>
    if k' = k then (k', v) :: rest else (k', v') :: recordSet rest k v

/-- Embedding of dict.update(patch): apply the patch items in order. -/
def recordUpdate {V : Type} (r : Record V) (patch : Record V) : Record V :=
  patch.foldl (fun acc kv => recordSet acc kv.1 kv.2) r

/-- Embedding of the generator-with-next lookup in merge_with_existing_data:
the first record of new_data whose task_name value equals the given one
(both read with dict.get, so records lacking the key compare as None). -/
def findMatching {V : Type} [DecidableEq V] (new_data : List (Record V))
    (name : Option V) : Option (Record V) :=
  new_data.find? (fun task => decide (recordGet task "task_name" = name))

/-- Per-record step of merge_with_existing_data: update the existing record
with every non-task_name item of the matching incoming record, or leave it
unchanged when no incoming record matches. -/
def mergeRecord {V : Type} [DecidableEq V] (existing : Record V)
    (new_data : List (Record V)) : Record V :=
  match findMatching new_data (recordGet existing "task_name") with
  | none => existing
  | some m => recordUpdate existing (m.filter (fun kv => kv.1 != "task_name"))

/-- Embedding of merge_with_existing_data: the Python loop mutates each
record of existing_data in place and returns the same list, which is the
map below. -/
def merge_with_existing_data {V : Type} [DecidableEq V]
    (existing_data new_data : List (Record V)) : List (Record V) :=
  existing_data.map (fun r => mergeRecord r new_data)

/-- Setting a key to the value it already holds leaves the record
structurally unchanged. -/
theorem recordSet_eq_self {V : Type} (r : Record V) (k : String) (v : V)
    (h : recordGet r k = some v) : recordSet r k v = r := by
  induction r with
  | nil => simp [recordGet] at h
  | cons kv rest ih =>
    cases kv with
    | mk a b =>
      by_cases hk : a = k
      · have hv : b = v := by simpa [recordGet, hk] using h
        simp [recordSet, hk, hv]
      · have h' : recordGet rest k = some v := by simpa [recordGet, hk] using h
        simp [recordSet, hk, ih h']

/-- Lookup after an assignment to a different key is unchanged. -/
theorem recordGet_set_ne {V : Type} (r : Record V) (k k' : String) (v : V)
    (h : k' ≠ k) : recordGet (recordSet r k v) k' = recordGet r k' := by
  induction r with
  | nil => simp [recordSet, recordGet, Ne.symm h]
  | cons kv rest ih =>
    cases kv with
    | mk a b =>
      by_cases hk : a = k
      · simp [recordSet, recordGet, hk, Ne.symm h]
      · by_cases ha : a = k'
        · simp [recordSet, recordGet, hk, ha, h]
        · simp [recordSet, recordGet, hk, ha, ih]

/-- Lookup at the assigned key returns the assigned value. -/
theorem recordGet_set_eq {V : Type} (r : Record V) (k : String) (v : V) :
    recordGet (recordSet r k v) k = some v := by
  induction r with
  | nil => simp [recordSet, recordGet]
  | cons kv rest ih =>
    cases kv with
    | mk a b =>
      by_cases hk : a = k
      · simp [recordSet, recordGet, hk]
      · simp [recordSet, recordGet, hk, ih]

/-- Lookup after an update at a key the patch does not bind is unchanged. -/
theorem recordGet_update_not_mem {V : Type} (r : Record V)
    (patch : Record V) (k : String) (h : k ∉ recordKeys patch) :
    recordGet (recordUpdate r patch) k = recordGet r k := by
  induction patch generalizing r with
  | nil => rfl
  | cons kv rest ih =>
    have hk : k ∉ recordKeys rest := by
      intro hmem
      exact h (List.mem_cons_of_mem _ hmem)
    have hne : k ≠ kv.1 := by
      intro he
      exact h (by rw [he]; exact List.mem_cons_self _ _)
    show recordGet (recordUpdate (recordSet r kv.1 kv.2) rest) k = recordGet r k
    rw [ih _ hk, recordGet_set_ne _ _ _ _ hne]

/-- Lookup after an update at a key the patch binds (with distinct patch
keys) returns the patched value. -/
theorem recordGet_update_mem {V : Type} (r : Record V) (patch : Record V)
    (hnd : recordNodupKeys patch) {k : String} {v : V} (h : (k, v) ∈ patch) :
    recordGet (recordUpdate r patch) k = some v := by
  induction patch generalizing r with
  | nil => exact absurd h (List.not_mem_nil _)
  | cons kv rest ih =>
    have hnd' : recordNodupKeys rest := (List.nodup_cons.mp hnd).2
    rcases List.mem_cons.mp h with heq | hmem
    · subst heq
      have hk : k ∉ recordKeys rest := (List.nodup_cons.mp hnd).1
      show recordGet (recordUpdate (recordSet r k v) rest) k = some v
      rw [recordGet_update_not_mem _ _ _ hk, recordGet_set_eq]
    · show recordGet (recordUpdate (recordSet r kv.1 kv.2) rest) k = some v
      exact ih _ hnd' hmem

/-- Re-applying an update whose bindings are already present is the
identity. -/
theorem recordUpdate_eq_self {V : Type} (r : Record V) (patch : Record V)
    (h : ∀ kv ∈ patch, recordGet r kv.1 = some kv.2) : recordUpdate r patch = r := by
  induction patch with
  | nil => rfl
  | cons kv rest ih =>
    show recordUpdate (recordSet r kv.1 kv.2) rest = r
    rw [recordSet_eq_self _ _ _ (h kv (List.mem_cons_self _ _))]
    exact ih (fun kv' h' => h kv' (List.mem_cons_of_mem _ h'))

/-- Keys of a filtered record form a sublist of the original keys, so the
distinct-keys invariant survives filtering. -/
theorem recordNodupKeys_filter {V : Type} {r : Record V}
    (hnd : recordNodupKeys r) (p : String × V → Bool) :
    recordNodupKeys (r.filter p) :=
  ((List.filter_sublist r).map Prod.fst).nodup hnd


/-- The patch built from a matching record never binds the key field. -/
theorem task_name_not_mem_patch {V : Type} (m : Record V) :
    "task_name" ∉ recordKeys (m.filter (fun kv => kv.1 != "task_name")) := by
  intro hmem
  obtain ⟨kv, hkv, hfst⟩ := List.mem_map.mp hmem
  have hpred := List.of_mem_filter hkv
  simp [hfst] at hpred

/-- Merging never changes the task_name value of an existing record. -/
theorem mergeRecord_get_task_name {V : Type} [DecidableEq V]
    (r : Record V) (B : List (Record V)) :
    recordGet (mergeRecord r B) "task_name" = recordGet r "task_name" := by
  unfold mergeRecord
  cases hm : findMatching B (recordGet r "task_name") with
  | none => rfl
  | some m =>
    exact recordGet_update_not_mem _ _ _ (task_name_not_mem_patch m)

/-- Applying the same patch to one record twice equals applying it once. -/
theorem mergeRecord_idem {V : Type} [DecidableEq V] (r : Record V)
    (B : List (Record V)) (hB : ∀ m ∈ B, recordNodupKeys m) :
    mergeRecord (mergeRecord r B) B = mergeRecord r B := by
  cases hm : findMatching B (recordGet r "task_name") with
  | none =>
    have h1 : mergeRecord r B = r := by unfold mergeRecord; rw [hm]
    rw [h1]
    exact h1
  | some m =>
    have hmB : m ∈ B := List.mem_of_find?_eq_some hm
    have hpatch : recordNodupKeys (m.filter (fun kv => kv.1 != "task_name")) :=
      recordNodupKeys_filter (hB m hmB) _
    have h1 : mergeRecord r B
        = recordUpdate r (m.filter (fun kv => kv.1 != "task_name")) := by
      unfold mergeRecord; rw [hm]
    have hname : recordGet (mergeRecord r B) "task_name"
        = recordGet r "task_name" := mergeRecord_get_task_name r B
    have h2 : mergeRecord (mergeRecord r B) B
        = recordUpdate (mergeRecord r B)
            (m.filter (fun kv => kv.1 != "task_name")) := by
      generalize hs : mergeRecord r B = s at hname ⊢
      unfold mergeRecord
      rw [hname, hm]
    rw [h2, h1]
    apply recordUpdate_eq_self
    rintro ⟨k, v⟩ hkv
    exact recordGet_update_mem r _ hpatch hkv

/-- C2: record merging is idempotent: for every pair of keyed record lists A
and B (records being dicts, i.e. their keys are distinct), re-applying the
same patch changes nothing:
merge_with_existing_data (merge_with_existing_data A B) B equals
merge_with_existing_data A B. -/
theorem c2_merge_idempotent {V : Type} [DecidableEq V]
    (A B : List (Record V)) (hB : ∀ m ∈ B, recordNodupKeys m) :
    merge_with_existing_data (merge_with_existing_data A B) B
      = merge_with_existing_data A B := by
  unfold merge_with_existing_data
  rw [List.map_map]
  exact List.map_congr_left (fun r _ => mergeRecord_idem r B hB)

/-- Witness for c2_merge_idempotent at concrete record lists. -/
theorem c2_merge_idempotent_witness :
    merge_with_existing_data
      (merge_with_existing_data
        [[("task_name", (1 : Nat)), ("x", 2)], [("task_name", 3)]]
        [[("task_name", 1), ("x", 5), ("y", 7)]])
      [[("task_name", 1), ("x", 5), ("y", 7)]]
    = merge_with_existing_data
        [[("task_name", (1 : Nat)), ("x", 2)], [("task_name", 3)]]
        [[("task_name", 1), ("x", 5), ("y", 7)]] :=
  c2_merge_idempotent _ _ (by decide)

/-- C10: merging preserves the frame of the existing list: the result has
the same length and, position by position, the same task_name value as the
input existing list; in particular records only present in the incoming
list never appear, and no record's key field is overwritten. -/
theorem c10_merge_frame {V : Type} [DecidableEq V]
    (A B : List (Record V)) :
    (merge_with_existing_data A B).length = A.length ∧
    (merge_with_existing_data A B).map (fun r => recordGet r "task_name")
      = A.map (fun r => recordGet r "task_name") := by
  constructor
  · exact List.length_map _ _
  · unfold merge_with_existing_data
    rw [List.map_map]
    exact List.map_congr_left
      (fun r _ => mergeRecord_get_task_name r B)

/-- C8: decoding the zero bitmask is asymmetric across the three mappings:
the month-day decoder returns the singleton list containing 0, while the
weekday and month decoders return the empty list. -/
theorem c8_zero_bitmask_asymmetry :
    bitmask_to_days_of_month 0 = [0] ∧
    bitmask_to_days_of_week 0 = [] ∧
    bitmask_to_months_of_year 0 = [] := by
  refine ⟨rfl, ?_, ?_⟩ <;> decide

/-! ## LogTailExtractor (src/data_processor.py, process_log_files,
lines 349-434, with helpers from src/utils.py)

The bounded backward file read and the regular-expression search are
external input producers; the loop receives, for each scanned line, either
no match or a match carrying the parsed named groups.  A match is modelled
by the groups the selection and post-processing code reads: the event date
(an abstract integer day ordinal, compared for equality with the current
date), plus the raw status and recipients strings. -/

/-- One successful pattern match on a log line: the named groups the
selection loop and post-processing read. -/
structure LogMatch where
  date : Int
  status : String
  recipientsRaw : String
deriving DecidableEq, Repr

/-- Embedding of the selection loop of process_log_files, which walks the
scanned lines from the last backwards: a match dated today is taken
immediately (break), otherwise the first match seen (the newest overall)
is remembered and the scan continues hoping for a today match.  The
argument list is already reversed (newest first), acc is last_match. -/
def scan_matches (today : Int) :
    List (Option LogMatch) → Option LogMatch → Option LogMatch
  | [], acc => acc
  | line :: rest, acc =>
    match line with
    | none => scan_matches today rest acc
    | some m =>
      if m.date = today then some m
      else scan_matches today rest (acc.orElse (fun _ => some m))

/-- Embedding of the selection in process_log_files over the scanned lines
in file order (oldest first), as read_last_n_lines returns them; the loop
iterates over reversed(last_lines) with last_match starting as None. -/
def select_log_match (lines : List (Option LogMatch)) (today : Int) :
    Option LogMatch :=
  scan_matches today lines.reverse none

/-- All pattern matches of the scanned lines, in file order. -/
def log_matches (lines : List (Option LogMatch)) : List LogMatch :=
  lines.filterMap id

/-- The matches of the scanned lines dated today, in file order. -/
def today_matches (lines : List (Option LogMatch)) (today : Int) :
    List LogMatch :=
  (log_matches lines).filter (fun m => m.date = today)

/-- Invariant of the backward scan: the result is the first today-dated
match if any, else the remembered accumulator, else the first match. -/
theorem scan_matches_eq (today : Int) (L : List (Option LogMatch))
    (acc : Option LogMatch) :
    scan_matches today L acc
      = (((L.filterMap id).filter (fun m => m.date = today)).head?).orElse
          (fun _ => acc.orElse (fun _ => (L.filterMap id).head?)) := by
  induction L generalizing acc with
  | nil => cases acc <;> rfl
  | cons line rest ih =>
    cases line with
    | none =>
      simp only [scan_matches, List.filterMap_cons_none]
      exact ih acc
    | some m =>
      by_cases hd : m.date = today
      · have h1 : scan_matches today (some m :: rest) acc = some m := by
          simp [scan_matches, hd]
        have h2 : List.filterMap id (some m :: rest)
            = m :: List.filterMap id rest := rfl
        rw [h1, h2, List.filter_cons_of_pos (by simp [hd]), List.head?_cons]
        rfl
      · have h1 : scan_matches today (some m :: rest) acc
            = scan_matches today rest (acc.orElse (fun _ => some m)) := by
          simp [scan_matches, hd]
        have h2 : List.filterMap id (some m :: rest)
            = m :: List.filterMap id rest := rfl
        rw [h1, ih, h2, List.filter_cons_of_neg (by simp [hd]), List.head?_cons]
        cases acc <;> rfl

/-- C5: given log events dated today among the scanned lines,
process_log_files selects the latest today-dated event; given only events
not dated today, it selects the overall latest matching event in the
window. -/
theorem c5_log_date_preference (lines : List (Option LogMatch))
    (today : Int) :
    (today_matches lines today ≠ [] →
      select_log_match lines today = (today_matches lines today).getLast?) ∧
    (today_matches lines today = [] →
      select_log_match lines today = (log_matches lines).getLast?) := by
  have hsel : select_log_match lines today
      = ((today_matches lines today).reverse.head?).orElse
          (fun _ => (log_matches lines).reverse.head?) := by
    unfold select_log_match today_matches log_matches
    rw [scan_matches_eq]
    rw [List.filterMap_reverse, List.filter_reverse]
    rfl
  constructor
  · intro hne
    rw [hsel, List.head?_reverse, List.head?_reverse]
    cases hl : (today_matches lines today).getLast? with
    | none =>
      exact absurd (List.getLast?_eq_none_iff.mp hl) hne
    | some a => rfl
  · intro hemp
    rw [hsel, hemp]
    simp only [List.reverse_nil, List.head?_nil]
    rw [List.head?_reverse]
    rfl

/-- Witness for c5_log_date_preference: a window holding a yesterday match,
two today matches and a non-matching line picks the last today match; a
window with no today match picks the last match overall. -/
theorem c5_log_date_preference_witness :
    select_log_match
      [some ⟨9, "Success", ""⟩, some ⟨10, "Issue", ""⟩, none,
       some ⟨10, "Success", ""⟩] 10 = some ⟨10, "Success", ""⟩ ∧
    select_log_match
      [some ⟨8, "Success", ""⟩, none, some ⟨9, "Issue", ""⟩] 10
      = some ⟨9, "Issue", ""⟩ := by
  constructor
  · exact (c5_log_date_preference
      [some ⟨9, "Success", ""⟩, some ⟨10, "Issue", ""⟩, none,
       some ⟨10, "Success", ""⟩] 10).1 (by decide)
  · exact (c5_log_date_preference
      [some ⟨8, "Success", ""⟩, none, some ⟨9, "Issue", ""⟩] 10).2 (by decide)

/-! ## Log post-processing helpers (src/utils.py parse_log_list_field,
src/data_processor.py lines 401-428)

String scanning is modelled on character lists, which mirrors how Python
indexes strings; the split uses explicit fuel so that every definition
evaluates inside the kernel. -/

/-- Embedding of str.strip with a cutset: remove leading and trailing
characters belonging to the cutset. -/
def pyStrip (cutset : List Char) (s : String) : String :=
  ⟨(((s.toList).dropWhile (fun c => cutset.contains c)).reverse.dropWhile
      (fun c => cutset.contains c)).reverse⟩

/-- Worker for str.split with a non-empty separator: scan left to right,
breaking at each non-overlapping occurrence of the separator.  The fuel
starts above the character count, so the zero-fuel branch is never
reached. -/
def splitGo (sep : List Char) : Nat → List Char → List Char → List (List Char)
  | 0, acc, l => [acc.reverse ++ l]
  | _ + 1, acc, [] => [acc.reverse]
  | fuel + 1, acc, c :: rest =>
    if sep.isPrefixOf (c :: rest) then
      acc.reverse :: splitGo sep fuel [] ((c :: rest).drop sep.length)
    else
      splitGo sep fuel (c :: acc) rest

/-- Embedding of str.split(sep) for a non-empty separator (the only way the
source calls it). -/
def pySplit (s sep : String) : List String :=
  (splitGo sep.toList (s.toList.length + 1) [] s.toList).map
    (fun cs => ⟨cs⟩)

/-- Embedding of str.join as the source uses it, over a list of strings. -/
def pyJoin (sep : String) : List String → String
  | [] => ""
  | [x] => x
  | x :: y :: rest => x ++ sep ++ pyJoin sep (y :: rest)

/-- Embedding of the Python substring test (the in operator on str). -/
def pyInStr (needle hay : String) : Bool :=
  decide (needle.toList <:+: hay.toList)

/-- The decoded recipient tokens of parse_log_list_field: the comprehension
item.strip of square brackets for each non-empty item of
raw_value.split on the bracket separator. -/
def decodedRecipients (raw : String) : List String :=
  ((pySplit raw "],[").filter (fun s => s != "")).map (pyStrip ['[', ']'])

/-- Embedding of parse_log_list_field (src/utils.py, lines 232-246). -/
def parse_log_list_field (raw : String) : String :=
  if raw = "" then "" else pyJoin "," (decodedRecipients raw)

/-- Embedding of the status post-processing of the selected log event
(src/data_processor.py, lines 404-422): the reported last_send_status is
SendError when the placeholder address occurs in the decoded recipients
string, else the matched status unchanged. -/
def last_send_status (status recipientsRaw : String) : String :=
  if pyInStr "fake@fake.ru" (parse_log_list_field recipientsRaw)
  then "SendError" else status

/-- A member of a joined list is a substring (character infix) of the
join. -/
theorem mem_infix_pyJoin (sep : String) (s : String) :
    ∀ l : List String, s ∈ l → s.toList <:+: (pyJoin sep l).toList := by
  intro l
  induction l with
  | nil => intro h; exact absurd h (List.not_mem_nil _)
  | cons x rest ih =>
    intro h
    cases rest with
    | nil =>
      rcases List.mem_cons.mp h with heq | hmem
      · subst heq; exact List.infix_refl _
      · exact absurd hmem (List.not_mem_nil _)
    | cons y rest' =>
      rcases List.mem_cons.mp h with heq | hmem
      · subst heq
        show s.toList <:+: (s ++ sep ++ pyJoin sep (y :: rest')).toList
        refine ⟨[], (sep ++ pyJoin sep (y :: rest')).toList, ?_⟩
        show s.toList ++ _ = _
        have : (s ++ sep ++ pyJoin sep (y :: rest')).toList
            = s.toList ++ (sep ++ pyJoin sep (y :: rest')).toList := by
          show (s ++ sep ++ pyJoin sep (y :: rest')).data
              = s.data ++ (sep ++ pyJoin sep (y :: rest')).data
          rw [String.data_append, String.data_append, String.data_append,
            List.append_assoc]
        rw [this]
      · obtain ⟨u, v, huv⟩ := ih hmem
        show s.toList <:+: (x ++ sep ++ pyJoin sep (y :: rest')).toList
        refine ⟨(x ++ sep).toList ++ u, v, ?_⟩
        have hdata : (x ++ sep ++ pyJoin sep (y :: rest')).toList
            = (x ++ sep).toList ++ (pyJoin sep (y :: rest')).toList := by
          show (x ++ sep ++ pyJoin sep (y :: rest')).data
              = (x ++ sep).data ++ (pyJoin sep (y :: rest')).data
          rw [String.data_append]
        rw [hdata, ← huv]
        simp [List.append_assoc]

/-- C6 as stated fails on the code: the test is a substring test on the
comma-joined recipients string, not membership of the decoded token list.
At the concrete recipients group of one bracketed token xfake@fake.ru, the
sentinel is not among the decoded recipients, yet the Success status is
still downgraded to SendError. -/
theorem c6_counterexample :
    decodedRecipients "[xfake@fake.ru]" = ["xfake@fake.ru"] ∧
    ("fake@fake.ru" ∈ decodedRecipients "[xfake@fake.ru]" → False) ∧
    last_send_status "Success" "[xfake@fake.ru]" = "SendError" ∧
    last_send_status "Success" "[xfake@fake.ru]" ≠ "Success" := by
  refine ⟨by decide, by decide, by decide, by decide⟩

/-- C6 amended: for a selected Success event, the status is downgraded to
SendError whenever the sentinel placeholder occurs as a substring of the
comma-joined decoded recipients string; membership among the decoded
recipients is sufficient for the downgrade but not necessary, and the
status is unchanged exactly when no such substring occurrence exists. -/
theorem c6_placeholder_downgrade (status raw : String) :
    ("fake@fake.ru" ∈ decodedRecipients raw →
      last_send_status status raw = "SendError") ∧
    (pyInStr "fake@fake.ru" (parse_log_list_field raw) = false →
      last_send_status status raw = status) := by
  constructor
  · intro hmem
    have hraw : raw ≠ "" := by
      intro he
      subst he
      exact absurd hmem (by decide)
    have hinf : "fake@fake.ru".toList <:+:
        (pyJoin "," (decodedRecipients raw)).toList :=
      mem_infix_pyJoin "," _ _ hmem
    unfold last_send_status parse_log_list_field
    rw [if_neg hraw]
    rw [if_pos (by unfold pyInStr; exact decide_eq_true hinf)]
  · intro hfalse
    unfold last_send_status
    rw [hfalse]
    simp

/-- Witness for c6_placeholder_downgrade at concrete recipient groups. -/
theorem c6_placeholder_downgrade_witness :
    last_send_status "Success" "[fake@fake.ru],[a@b.c]" = "SendError" ∧
    last_send_status "Success" "[a@b.c]" = "Success" :=
  ⟨(c6_placeholder_downgrade "Success" "[fake@fake.ru],[a@b.c]").1 (by decide),
   (c6_placeholder_downgrade "Success" "[a@b.c]").2 (by decide)⟩

/-! ## Python values and datetimes
(src/utils.py DateFormatter.format_datetime, lines 161-189, and the value
universe the trigger-normalization code manipulates) -/

/-- A naive Python datetime (no timezone), as produced by strptime and
fromisoformat-with-tz-stripped. -/
structure PyDateTime where
  year : Nat
  month : Nat
  day : Nat
  hour : Nat
  minute : Nat
  second : Nat
deriving DecidableEq, Repr

/-- The Python values the trigger read-back records contain. -/
inductive PyVal where
  | none
  | str (s : String)
  | int (n : Int)
  | bool (b : Bool)
  | dt (d : PyDateTime)
  | list (elems : List PyVal)

/-- Decimal digits of a natural number, most significant first, computed
with fuel so the kernel can evaluate it; any fuel above the number works. -/
def natDigitsGo : Nat → Nat → List Char
  | 0, _ => []
  | fuel + 1, n =>
    if n < 10 then [Char.ofNat (48 + n)]
    else natDigitsGo fuel (n / 10) ++ [Char.ofNat (48 + n % 10)]

/-- Decimal rendering of a natural number (str of a Python int). -/
def natStr (n : Nat) : String := ⟨natDigitsGo (n + 1) n⟩

/-- Decimal rendering of a Python int. -/
def intStr : Int → String
  | .ofNat m => natStr m
  | .negSucc m => "-" ++ natStr (m + 1)

/-- Zero-padded decimal rendering, as the %02d/%04d fields of str(datetime). -/
def padNum (width : Nat) (n : Nat) : String :=
  let ds := natDigitsGo (n + 1) n
  ⟨List.replicate (width - ds.length) '0' ++ ds⟩

/-- Rendering of str(datetime): YYYY-MM-DD HH:MM:SS (microsecond zero). -/
def renderDT (d : PyDateTime) : String :=
  padNum 4 d.year ++ "-" ++ padNum 2 d.month ++ "-" ++ padNum 2 d.day ++ " "
    ++ padNum 2 d.hour ++ ":" ++ padNum 2 d.minute ++ ":" ++ padNum 2 d.second

/-- Rendering of repr(datetime), as it appears inside str of a list:
trailing zero seconds are omitted, hour and minute always shown. -/
def reprDT (d : PyDateTime) : String :=
  "datetime.datetime(" ++ natStr d.year ++ ", " ++ natStr d.month ++ ", "
    ++ natStr d.day ++ ", " ++ natStr d.hour ++ ", " ++ natStr d.minute
    ++ (if d.second = 0 then "" else ", " ++ natStr d.second) ++ ")"

mutual

/-- Embedding of Python repr for the modelled values (as used by str of a
list, which reprs its elements). -/
def pyRepr : PyVal → String
  | .none => "None"
  | .str s => "\x27" ++ s ++ "\x27"
  | .int n => intStr n
  | .bool b => if b then "True" else "False"
  | .dt d => reprDT d
  | .list l => "[" ++ pyJoin ", " (pyReprList l) ++ "]"

/-- Reprs of a list of values, in order. -/
def pyReprList : List PyVal → List String
  | [] => []
  | v :: rest => pyRepr v :: pyReprList rest

end

/-- Embedding of Python str for the modelled values (what an f-string
interpolation produces). -/
def pyStr : PyVal → String
  | .none => "None"
  | .str s => s
  | .int n => intStr n
  | .bool b => if b then "True" else "False"
  | .dt d => renderDT d
  | .list l => "[" ++ pyJoin ", " (pyReprList l) ++ "]"

/-- Python truthiness for the modelled values. -/
def pyTruthy : PyVal → Bool
  | .none => false
  | .str s => s != ""
  | .int n => n != 0
  | .bool b => b
  | .dt _ => true
  | .list l => !l.isEmpty

/-- Days of a month in the proleptic Gregorian calendar, as datetime uses. -/
def daysInMonth (y m : Nat) : Nat :=
  if m = 2 then
    if y % 4 = 0 ∧ (y % 100 ≠ 0 ∨ y % 400 = 0) then 29 else 28
  else if m = 4 ∨ m = 6 ∨ m = 9 ∨ m = 11 then 30
  else 31

/-- A run of 1 to maxLen decimal digits read as a number (one strptime or
fromisoformat field). -/
def parseComp (minLen maxLen : Nat) (s : String) : Option Nat :=
  let cs := s.toList
  if minLen ≤ cs.length ∧ cs.length ≤ maxLen ∧ cs ≠ [] ∧ cs.all Char.isDigit
  then some (cs.foldl (fun a c => a * 10 + (c.toNat - 48)) 0)
  else none

/-- Embedding of datetime.strptime for the two fixed formats the source
uses (%Y-%m-%d %H:%M:%S and %Y-%m-%dT%H:%M:%S), parameterised by the
separator character, including strptime's calendar validation. -/
def strptimeYmdHMS (sep : Char) (s : String) : Option PyDateTime :=
  match pySplit s (String.singleton sep) with
  | [datePart, timePart] =>
    match pySplit datePart "-", pySplit timePart ":" with
    | [ys, ms, ds], [hs, mis, ss] =>
      match parseComp 1 4 ys, parseComp 1 2 ms, parseComp 1 2 ds,
          parseComp 1 2 hs, parseComp 1 2 mis, parseComp 1 2 ss with
      | some y, some m, some day, some h, some mi, some sec =>
        if 1 ≤ y ∧ y ≤ 9999 ∧ 1 ≤ m ∧ m ≤ 12 ∧ 1 ≤ day
            ∧ day ≤ daysInMonth y m ∧ h ≤ 23 ∧ mi ≤ 59 ∧ sec ≤ 59
        then some ⟨y, m, day, h, mi, sec⟩
        else none
      | _, _, _, _, _, _ => none
    | _, _ => none
  | _ => none

/-- Embedding of datetime.fromisoformat followed by replace(tzinfo=None)
for strings shaped YYYY-MM-DDTHH:MM:SS+HH:MM (the only shape reaching this
branch): the wall-clock part is kept and the offset discarded after being
validated. -/
def parseIsoTz (s : String) : Option PyDateTime :=
  match pySplit s "+" with
  | [main, tz] =>
    match strptimeYmdHMS 'T' main with
    | some d =>
      match pySplit tz ":" with
      | [ths, tms] =>
        match parseComp 2 2 ths, parseComp 2 2 tms with
        | some th, some tm => if th ≤ 23 ∧ tm ≤ 59 then some d else none
        | _, _ => none
      | _ => none
    | Option.none => Option.none
  | _ => none

/-- The dt computed by the branch cascade of DateFormatter.format_datetime
before the timedelta is added: a datetime argument is kept, a string is
parsed by shape ('T' and '+' means fromisoformat with the timezone
stripped, 'T' alone means the ISO strptime format, otherwise the default
format), everything else yields None.  An unparseable string raises
(ValueError), modelled as the error case. -/
def parse_datetime_arg : PyVal → Except Unit (Option PyDateTime)
  | .dt d => .ok (some d)
  | .str s =>
    if s.toList.contains 'T' && s.toList.contains '+' then
      match parseIsoTz s with
      | some d => .ok (some d)
      | Option.none => .error ()
    else if s.toList.contains 'T' then
      match strptimeYmdHMS 'T' s with
      | some d => .ok (some d)
      | Option.none => .error ()
    else
      match strptimeYmdHMS ' ' s with
      | some d => .ok (some d)
      | Option.none => .error ()
  | _ => .ok Option.none

/-- Calendar successor day. -/
def nextDay (d : PyDateTime) : PyDateTime :=
  if d.day < daysInMonth d.year d.month then { d with day := d.day + 1 }
  else if d.month < 12 then { d with month := d.month + 1, day := 1 }
  else { d with year := d.year + 1, month := 1, day := 1 }

/-- Calendar predecessor day. -/
def prevDay (d : PyDateTime) : PyDateTime :=
  if 1 < d.day then { d with day := d.day - 1 }
  else if 1 < d.month then
    { d with month := d.month - 1, day := daysInMonth d.year (d.month - 1) }
  else { d with year := d.year - 1, month := 12, day := 31 }

/-- Iterated calendar successor. -/
def dtAddDays : Nat → PyDateTime → PyDateTime
  | 0, d => d
  | n + 1, d => dtAddDays n (nextDay d)

/-- Iterated calendar predecessor. -/
def dtSubDays : Nat → PyDateTime → PyDateTime
  | 0, d => d
  | n + 1, d => dtSubDays n (prevDay d)

/-- Embedding of datetime + timedelta(hours=delta): euclidean split of the
shifted hour into a day shift and a wall-clock hour, then calendar day
stepping. -/
def addHours (delta : Int) (d : PyDateTime) : PyDateTime :=
  if 0 ≤ ((d.hour : Int) + delta).ediv 24 then
    dtAddDays (((d.hour : Int) + delta).ediv 24).toNat
      { d with hour := (((d.hour : Int) + delta).emod 24).toNat }
  else
    dtSubDays (-(((d.hour : Int) + delta).ediv 24)).toNat
      { d with hour := (((d.hour : Int) + delta).emod 24).toNat }

/-- Embedding of DateFormatter.format_datetime: the parsed dt gets the hour
delta added when it is not None. -/
def format_datetime (v : PyVal) (delta : Int) : Except Unit (Option PyDateTime) :=
  (parse_datetime_arg v).map (fun od => od.map (addHours delta))

/-- Adding zero hours to a valid wall-clock time is the identity. -/
theorem addHours_zero (d : PyDateTime) (h : d.hour < 24) :
    addHours 0 d = d := by
  unfold addHours
  have ht : ((d.hour : Int) + 0) = (d.hour : Int) := by ring
  rw [ht]
  have hlt : (d.hour : Int) < 24 := by exact_mod_cast h
  have hemod : (d.hour : Int).emod 24 = (d.hour : Int) :=
    Int.emod_eq_of_lt (by positivity) hlt
  have hediv : (d.hour : Int).ediv 24 = 0 :=
    Int.ediv_eq_zero_of_lt (by positivity) hlt
  rw [hemod, hediv]
  simp [dtAddDays]

/-! ## SchedulerDataProcessor.process_trigger_info
(src/data_processor.py, lines 63-111)

The read-back trigger keys are exactly the eleven keys that get_task_info
produces and self.fields maps into the schedule_data dict; any other key
would raise KeyError on schedule_data and never occurs.  A trigger record
is an association list of these keys in iteration order. -/

/-- The trigger read-back keys process_trigger_info handles. -/
inductive TrigKey where
  | scheduleType
  | startBoundary
  | triggerState
  | daysInterval
  | weeksInterval
  | daysOfWeek
  | monthsOfYear
  | daysOfMonth
  | repeatEvery
  | repeatUntilTime
  | repeatUntilDuration
deriving DecidableEq, Repr

/-- The canonical field name self.fields assigns to each trigger key. -/
def fieldName : TrigKey → String
  | .scheduleType => "task_schedule_type"
  | .startBoundary => "task_schedule_start_date"
  | .triggerState => "task_trigger_status"
  | .daysInterval => "task_schedule_days_interval"
  | .weeksInterval => "task_schedule_weeks_interval"
  | .daysOfWeek => "task_schedule_week_days"
  | .monthsOfYear => "task_schedule_months"
  | .daysOfMonth => "task_schedule_month_days"
  | .repeatEvery => "task_schedule_repeat_every"
  | .repeatUntilTime => "task_schedule_repeat_until_time"
  | .repeatUntilDuration => "task_schedule_repeat_until_duration"

/-- One read-back trigger record: key-value pairs in dict order. -/
abbrev TrigRecord : Type := List (TrigKey × PyVal)

/-- Embedding of the join of the day/month list branch:
a comma-space join of str of each element of the iterated value.  Iterating
a string yields its characters; iterating a non-iterable raises TypeError,
modelled as the error case. -/
def joinElems : PyVal → Except Unit String
  | .list l => .ok (pyJoin ", " (l.map pyStr))
  | .str s => .ok (pyJoin ", " (s.toList.map (fun c => String.singleton c)))
  | _ => .error ()

/-- The string appended to schedule_data for one key-value pair of a
trigger, with the already-computed prefix: the StartBoundary value runs
through format_datetime (default zero delta) and is interpolated (None
prints as None), the three day/month list keys are comma-joined when
truthy, and every other value is interpolated as is. -/
def entryFor (pre : String) (k : TrigKey) (v : PyVal) : Except Unit String :=
  match k with
  | .startBoundary =>
    (format_datetime v 0).map (fun od =>
      pre ++ pyStr (match od with
        | some d => PyVal.dt d
        | Option.none => PyVal.none))
  | .daysOfWeek | .daysOfMonth | .monthsOfYear =>
    if pyTruthy v then (joinElems v).map (fun j => pre ++ j)
    else .ok (pre ++ pyStr v)
  | _ => .ok (pre ++ pyStr v)

/-- The accumulating schedule_data dict: the entry list per canonical key. -/
abbrev SchedState : Type := TrigKey → List String

/-- Append one entry to one field's list. -/
def pushEntry (st : SchedState) (k : TrigKey) (e : String) : SchedState :=
  fun k' => if k' = k then st k' ++ [e] else st k'

/-- The Trigger n prefix, present exactly when more than one trigger is. -/
def prefixStr (add : Bool) (idx : Nat) : String :=
  if add then "Trigger " ++ natStr (idx + 1) ++ ": " else ""

/-- The inner loop of process_trigger_info over one trigger's items. -/
def triggerItemsLoop (pre : String) : TrigRecord → SchedState →
    Except Unit SchedState
  | [], st => .ok st
  | (k, v) :: rest, st =>
    match entryFor pre k v with
    | .ok e => triggerItemsLoop pre rest (pushEntry st k e)
    | .error err => .error err

/-- The outer loop of process_trigger_info over the enumerated triggers. -/
def triggersLoop (add : Bool) : Nat → List TrigRecord → SchedState →
    Except Unit SchedState
  | _, [], st => .ok st
  | idx, t :: rest, st =>
    match triggerItemsLoop (prefixStr add idx) t st with
    | .ok st' => triggersLoop add (idx + 1) rest st'
    | .error err => .error err

/-- The final join of process_trigger_info: falsy (empty) accumulated
strings are dropped, the survivors joined with comma-space, and an empty
join becomes None. -/
def finalizeField (entries : List String) : Option String :=
  let kept := entries.filter (fun s => s != "")
  if kept.isEmpty then none else some (pyJoin ", " kept)

/-- Embedding of process_trigger_info: the flat record, one optional joined
string per canonical field (error when a StartBoundary string fails to
parse or a list branch iterates a non-iterable). -/
def process_trigger_info (schedule_info : List TrigRecord) :
    Except Unit (TrigKey → Option String) :=
  (triggersLoop (decide (1 < schedule_info.length)) 0 schedule_info
      (fun _ => [])).map
    (fun st k => finalizeField (st k))

/-- Specification-side recomputation: the entries one trigger contributes
to one field, in item order. -/
def entriesFor (pre : String) (k : TrigKey) : TrigRecord →
    Except Unit (List String)
  | [] => .ok []
  | (k', v) :: rest =>
    if k' = k then
      match entryFor pre k' v, entriesFor pre k rest with
      | .ok e, .ok more => .ok (e :: more)
      | .error err, _ => .error err
      | _, .error err => .error err
    else entriesFor pre k rest

/-- Specification-side recomputation: the entries all triggers contribute
to one field, trigger by trigger with the enumerated prefix. -/
def fieldEntries (add : Bool) (k : TrigKey) : Nat → List TrigRecord →
    Except Unit (List String)
  | _, [] => .ok []
  | idx, t :: rest =>
    match entriesFor (prefixStr add idx) k t, fieldEntries add k (idx + 1) rest with
    | .ok es, .ok more => .ok (es ++ more)
    | .error err, _ => .error err
    | _, .error err => .error err

/-- Invariant of the inner loop: the state grows, per field, by exactly the
entries of that trigger for the field. -/
theorem triggerItemsLoop_invariant (pre : String) (trig : TrigRecord) :
    ∀ st st', triggerItemsLoop pre trig st = .ok st' →
      ∀ k, ∃ es, entriesFor pre k trig = .ok es ∧ st' k = st k ++ es := by
  induction trig with
  | nil =>
    intro st st' h k
    refine ⟨[], rfl, ?_⟩
    have hst : st' = st := (Except.ok.inj h).symm
    rw [hst, List.append_nil]
  | cons kv rest ih =>
    intro st st' h k
    cases kv with
    | mk k' v =>
      unfold triggerItemsLoop at h
      cases he : entryFor pre k' v with
      | error err => rw [he] at h; exact absurd h (by simp)
      | ok e =>
        rw [he] at h
        obtain ⟨es, hes, hst⟩ := ih _ _ h k
        by_cases hk : k' = k
        · subst hk
          refine ⟨e :: es, ?_, ?_⟩
          · unfold entriesFor
            rw [if_pos rfl, he, hes]
          · rw [hst]
            unfold pushEntry
            rw [if_pos rfl]
            simp
        · refine ⟨es, ?_, ?_⟩
          · unfold entriesFor
            rw [if_neg hk]
            exact hes
          · rw [hst]
            unfold pushEntry
            rw [if_neg (fun hh => hk hh.symm)]

/-- Invariant of the outer loop: the state grows, per field, by exactly the
entries all remaining triggers contribute to the field. -/
theorem triggersLoop_invariant (add : Bool) (info : List TrigRecord) :
    ∀ idx st st', triggersLoop add idx info st = .ok st' →
      ∀ k, ∃ es, fieldEntries add k idx info = .ok es ∧ st' k = st k ++ es := by
  induction info with
  | nil =>
    intro idx st st' h k
    refine ⟨[], rfl, ?_⟩
    have hst : st' = st := (Except.ok.inj h).symm
    rw [hst, List.append_nil]
  | cons t rest ih =>
    intro idx st st' h k
    unfold triggersLoop at h
    cases hinner : triggerItemsLoop (prefixStr add idx) t st with
    | error err => rw [hinner] at h; exact absurd h (by simp)
    | ok st1 =>
      rw [hinner] at h
      obtain ⟨es1, hes1, hst1⟩ :=
        triggerItemsLoop_invariant (prefixStr add idx) t st st1 hinner k
      obtain ⟨es2, hes2, hst2⟩ := ih (idx + 1) st1 st' h k
      refine ⟨es1 ++ es2, ?_, ?_⟩
      · unfold fieldEntries
        rw [hes1, hes2]
      · rw [hst2, hst1, List.append_assoc]

/-- C4 amended: for every trigger list on which process_trigger_info
succeeds, each canonical field equals the join of that field's per-trigger
formatted entries (the Trigger n prefix applied exactly when more than one
trigger is present, as fieldEntries does through prefixStr), where entries
whose formatted string is empty - not entries whose raw value is falsy -
are dropped before joining, and the field is null exactly when every
formatted entry is the empty string (in particular when no trigger supplied
the field). -/
theorem c4_trigger_flattening (info : List TrigRecord)
    (out : TrigKey → Option String)
    (h : process_trigger_info info = .ok out) (k : TrigKey) :
    ∃ es, fieldEntries (decide (1 < info.length)) k 0 info = .ok es ∧
      out k = (if (es.filter (fun s => s != "")).isEmpty then none
        else some (pyJoin ", " (es.filter (fun s => s != "")))) := by
  unfold process_trigger_info at h
  cases hloop : triggersLoop (decide (1 < info.length)) 0 info (fun _ => []) with
  | error err => rw [hloop] at h; exact absurd h (by simp [Except.map])
  | ok st =>
    rw [hloop] at h
    have hout : out = fun k => finalizeField (st k) := (Except.ok.inj h).symm
    obtain ⟨es, hes, hst⟩ :=
      triggersLoop_invariant (decide (1 < info.length)) info 0
        (fun _ => []) st hloop k
    refine ⟨es, hes, ?_⟩
    rw [hout]
    show finalizeField (st k) = _
    rw [hst]
    show finalizeField es = _
    unfold finalizeField
    rfl

/-- Witness for c4_trigger_flattening: two triggers, so each entry carries
its Trigger n prefix, an empty-string schedule type is dropped from the
first trigger only by virtue of prefixing making it non-empty. -/
theorem c4_trigger_flattening_witness :
    ∃ es, fieldEntries true TrigKey.scheduleType 0
        [[(TrigKey.scheduleType, PyVal.str "daily")],
         [(TrigKey.scheduleType, PyVal.str "weekly")]] = .ok es ∧
      (some "Trigger 1: daily, Trigger 2: weekly" : Option String)
        = (if (es.filter (fun s => s != "")).isEmpty then none
          else some (pyJoin ", " (es.filter (fun s => s != "")))) := by
  obtain ⟨es, hes, hout⟩ := c4_trigger_flattening
    [[(TrigKey.scheduleType, PyVal.str "daily")],
     [(TrigKey.scheduleType, PyVal.str "weekly")]]
    _ rfl TrigKey.scheduleType
  exact ⟨es, hes, by rw [← hout]; rfl⟩

/-- C4 as stated fails on the code: a falsy raw per-trigger value is not
dropped - only its formatted string would be, and None formats as the
non-empty string None.  With a single trigger whose Schedule Type is None
(falsy), the claim predicts a null task_schedule_type, yet the code
produces the string None. -/
theorem c4_counterexample :
    pyTruthy PyVal.none = false ∧
    (process_trigger_info [[(TrigKey.scheduleType, PyVal.none)]]).map
      (fun out => out TrigKey.scheduleType) = .ok (some "None") := by
  constructor
  · rfl
  · rfl

/-! ### The StartBoundary hour offset (claim C7) -/

/-- The normalized task_schedule_start_date of a processed trigger list
(outer none when process_trigger_info raises). -/
def startDateField (info : List TrigRecord) : Option (Option String) :=
  match process_trigger_info info with
  | .ok out => some (out TrigKey.startBoundary)
  | .error _ => none

/-- A successfully strptime-parsed datetime has a wall-clock hour. -/
theorem strptime_hour_lt (sep : Char) (s : String) (d : PyDateTime)
    (h : strptimeYmdHMS sep s = some d) : d.hour < 24 := by
  obtain ⟨y2, m2, d2, h2, mi2, s2⟩ := d
  unfold strptimeYmdHMS at h
  repeat' split at h
  all_goals first
    | (have hd := Option.some.inj h
       injection hd with e1 e2 e3 e4 e5 e6
       show h2 < 24
       omega)
    | exact absurd h (by simp)

/-- A successfully fromisoformat-parsed datetime has a wall-clock hour. -/
theorem parseIsoTz_hour_lt (s : String) (d : PyDateTime)
    (h : parseIsoTz s = some d) : d.hour < 24 := by
  unfold parseIsoTz at h
  repeat' split at h
  all_goals first
    | (have hd := Option.some.inj h
       exact hd ▸ strptime_hour_lt 'T' _ _ (by assumption))
    | exact absurd h (by simp)

/-- Every datetime the string branches of format_datetime produce has a
wall-clock hour. -/
theorem parse_datetime_arg_hour_lt (s : String) (d : PyDateTime)
    (h : parse_datetime_arg (PyVal.str s) = .ok (some d)) : d.hour < 24 := by
  unfold parse_datetime_arg at h
  repeat' split at h
  all_goals first
    | (have hd := Option.some.inj (Except.ok.inj h)
       exact hd ▸ parseIsoTz_hour_lt _ _ (by assumption))
    | (have hd := Option.some.inj (Except.ok.inj h)
       exact hd ▸ strptime_hour_lt 'T' _ _ (by assumption))
    | (have hd := Option.some.inj (Except.ok.inj h)
       exact hd ▸ strptime_hour_lt ' ' _ _ (by assumption))
    | simp_all

/-- The digit run of a natural number is never empty. -/
theorem natDigitsGo_ne_nil (n : Nat) : natDigitsGo (n + 1) n ≠ [] := by
  unfold natDigitsGo
  split
  · simp
  · simp

/-- A zero-padded numeric field renders to a non-empty string. -/
theorem padNum_data_ne_nil (w n : Nat) : (padNum w n).data ≠ [] := by
  show List.replicate (w - (natDigitsGo (n + 1) n).length) '0'
      ++ natDigitsGo (n + 1) n ≠ []
  simp [natDigitsGo_ne_nil]

/-- A rendered datetime is never the empty string. -/
theorem renderDT_ne_empty (d : PyDateTime) : renderDT d ≠ "" := by
  intro hc
  have hdata := congrArg String.data hc
  unfold renderDT at hdata
  simp only [String.data_append, List.append_eq_nil] at hdata
  exact padNum_data_ne_nil 4 d.year hdata.1.1.1.1.1.1.1.1.1.1

/-- The final join of a single non-empty entry is that entry. -/
theorem finalizeField_single {e : String} (he : e ≠ "") :
    finalizeField [e] = some e := by
  unfold finalizeField
  have hkeep : ([e].filter (fun s => s != "")) = [e] := by simp [he]
  rw [hkeep]
  rfl

/-- C7 as stated fails on the code: process_trigger_info formats
StartBoundary through format_datetime with the default zero hour delta,
while a configured offset like the -3 hours used for Last Run Time would
shift the wall clock.  At the concrete read-back 2025-01-02T10:00:00 the
normalized start date keeps hour 10; the -3 offset of Last Run Time would
have produced hour 07. -/
theorem c7_counterexample :
    startDateField [[(TrigKey.startBoundary, PyVal.str "2025-01-02T10:00:00")]]
      = some (some "2025-01-02 10:00:00") ∧
    format_datetime (PyVal.str "2025-01-02T10:00:00") (-3)
      = .ok (some ⟨2025, 1, 2, 7, 0, 0⟩) ∧
    renderDT ⟨2025, 1, 2, 7, 0, 0⟩ = "2025-01-02 07:00:00" ∧
    some (some ("2025-01-02 10:00:00" : String))
      ≠ some (some "2025-01-02 07:00:00") :=
  ⟨rfl, rfl, rfl, by decide⟩

/-- C7 amended: the StartBoundary timestamp of a read-back trigger is
parsed and then formatted with a zero hour offset (format_datetime's
default), so the normalized task_schedule_start_date reproduces the parsed
wall clock unshifted - unlike Last Run Time, whose formatting applies the
-3 hour offset. -/
theorem c7_start_boundary_zero_offset (s : String) (d : PyDateTime)
    (h : parse_datetime_arg (PyVal.str s) = .ok (some d)) :
    format_datetime (PyVal.str s) 0 = .ok (some d) ∧
    startDateField [[(TrigKey.startBoundary, PyVal.str s)]]
      = some (some (renderDT d)) := by
  have hlt : d.hour < 24 := parse_datetime_arg_hour_lt s d h
  have hfmt : format_datetime (PyVal.str s) 0 = .ok (some d) := by
    unfold format_datetime
    rw [h]
    show Except.ok (some (addHours 0 d)) = _
    rw [addHours_zero d hlt]
  refine ⟨hfmt, ?_⟩
  have hentry : entryFor "" TrigKey.startBoundary (PyVal.str s)
      = .ok (renderDT d) := by
    unfold entryFor
    rw [hfmt]
    rfl
  have hloop : triggersLoop false 0
      [[(TrigKey.startBoundary, PyVal.str s)]] (fun _ => [])
      = .ok (pushEntry (fun _ => []) TrigKey.startBoundary (renderDT d)) := by
    unfold triggersLoop triggerItemsLoop
    rw [show prefixStr false 0 = "" from rfl, hentry]
    rfl
  unfold startDateField process_trigger_info
  rw [show decide (1 < ([[(TrigKey.startBoundary, PyVal.str s)]] :
      List TrigRecord).length) = false from rfl, hloop]
  show some (finalizeField
    (pushEntry (fun _ => []) TrigKey.startBoundary (renderDT d)
      TrigKey.startBoundary)) = _
  rw [show pushEntry (fun _ => []) TrigKey.startBoundary (renderDT d)
      TrigKey.startBoundary = [renderDT d] from rfl,
    finalizeField_single (renderDT_ne_empty d)]

/-- Witness for c7_start_boundary_zero_offset at a concrete ISO string. -/
theorem c7_start_boundary_zero_offset_witness :
    format_datetime (PyVal.str "2025-03-04T05:06:07") 0
      = .ok (some ⟨2025, 3, 4, 5, 6, 7⟩) ∧
    startDateField [[(TrigKey.startBoundary, PyVal.str "2025-03-04T05:06:07")]]
      = some (some (renderDT ⟨2025, 3, 4, 5, 6, 7⟩)) :=
  c7_start_boundary_zero_offset "2025-03-04T05:06:07" ⟨2025, 3, 4, 5, 6, 7⟩ rfl

/-! ## TaskSchedulerManager (src/scheduler_handler.py)

A parsed trigger configuration dict: every field is optional because a dict
key can be absent; a present key can still hold None (the value PyVal.none),
which is how the parser's TRIGGER_DEFAULTS fill missing type/date/time. -/

/-- One trigger configuration dict, as _create_single_trigger and
_validate_single_trigger receive it. -/
structure TrigCfg where
  trigger_type : Option PyVal := none
  start_date : Option PyVal := none
  start_time : Option PyVal := none
  interval_week_days : Option PyVal := none
  days_of_week : Option PyVal := none
  days_of_month : Option PyVal := none
  months_of_year : Option PyVal := none
  repetition_interval : Option PyVal := none
  enabled : Option PyVal := none
  run_on_last_day_of_month : Option PyVal := none
  set_all_months : Option PyVal := none

/-- Whether a value is a Python str (an isinstance check). -/
def pyIsStr : PyVal → Bool
  | .str _ => true
  | _ => false

/-- Python equality of a value against a string literal. -/
def pyEqStr (v : PyVal) (s : String) : Bool :=
  match v with
  | .str t => t == s
  | _ => false

/-- Embedding of the date regular expression of the validator:
four digits, dash, two digits, dash, two digits, anchored. -/
def matchesDatePattern (s : String) : Bool :=
  match s.toList with
  | [y1, y2, y3, y4, s1, m1, m2, s2, d1, d2] =>
    y1.isDigit && y2.isDigit && y3.isDigit && y4.isDigit && s1 == '-'
      && m1.isDigit && m2.isDigit && s2 == '-' && d1.isDigit && d2.isDigit
  | _ => false

/-- Embedding of the time regular expression of the validator:
two digits, colon, two digits, anchored. -/
def matchesTimePattern (s : String) : Bool :=
  match s.toList with
  | [h1, h2, c, m1, m2] =>
    h1.isDigit && h2.isDigit && c == ':' && m1.isDigit && m2.isDigit
  | _ => false

/-- Embedding of datetime.strptime with format %Y-%m-%d (calendar
validation included). -/
def strptimeYmd (s : String) : Option (Nat × Nat × Nat) :=
  match pySplit s "-" with
  | [ys, ms, ds] =>
    match parseComp 1 4 ys, parseComp 1 2 ms, parseComp 1 2 ds with
    | some y, some m, some d =>
      if 1 ≤ y ∧ y ≤ 9999 ∧ 1 ≤ m ∧ m ≤ 12 ∧ 1 ≤ d ∧ d ≤ daysInMonth y m
      then some (y, m, d) else none
    | _, _, _ => none
  | _ => none

/-- Embedding of datetime.strptime with format %H:%M. -/
def strptimeHM (s : String) : Option (Nat × Nat) :=
  match pySplit s ":" with
  | [hs, ms] =>
    match parseComp 1 2 hs, parseComp 1 2 ms with
    | some h, some m => if h ≤ 23 ∧ m ≤ 59 then some (h, m) else none
    | _, _ => none
  | _ => none

/-- The valid month-day tokens of the validator: the decimal strings 1..31
plus the literal Last. -/
def validMonthDays : List String := (List.range' 1 31).map natStr ++ ["Last"]

/-- The seven valid weekday names of the validator. -/
def validWeekDays : List String :=
  ["Понедельник", "Вторник", "Среда", "Четверг", "Пятница", "Суббота",
   "Воскресенье"]

/-- The valid month names of the validator, plus the all-months literal. -/
def validMonths : List String :=
  ["Январь", "Февраль", "Март", "Апрель", "Май", "Июнь", "Июль", "Август",
   "Сентябрь", "Октябрь", "Ноябрь", "Декабрь", "Ежемесячно"]

/-- Validation errors of _validate_single_trigger, one constructor per
append site, carrying the trigger number and the interpolated value
renderings.  The message texts that interpolate only the trigger number
are reproduced exactly by the message function; the ones interpolating a
Python set display (whose element order is implementation-defined) are
reproduced with the source's insertion order. -/
inductive VErr where
  | missingParam (n : Nat) (key : String)
  | badTriggerType (n : Nat) (t : String)
  | badDateFormat (n : Nat) (d : String)
  | badTimeFormat (n : Nat) (t : String)
  | badDateTime (n : Nat) (date time : String)
  | badMonthDay (n : Nat) (day : String)
  | emptyMonthDays (n : Nat)
  | badWeekDay (n : Nat) (day : String)
  | emptyWeekDays (n : Nat)
  | badMonth (n : Nat) (m : String)
  | emptyMonths (n : Nat)
deriving DecidableEq, Repr

/-- The required-parameter presence errors (the required_keys loop; a
Python set of three string literals is iterated in an implementation-chosen
order, modelled as insertion order). -/
def requiredKeyErrors (t : TrigCfg) (n : Nat) : List VErr :=
  (if t.trigger_type.isNone then [VErr.missingParam n "trigger_type"] else [])
    ++ (if t.start_date.isNone then [VErr.missingParam n "start_date"] else [])
    ++ (if t.start_time.isNone then [VErr.missingParam n "start_time"] else [])

/-- The trigger-type validity error (get with empty-string default, then
set membership). -/
def triggerTypeErrors (t : TrigCfg) (n : Nat) : List VErr :=
  let tt := t.trigger_type.getD (PyVal.str "")
  if pyEqStr tt "daily" || pyEqStr tt "weekly" || pyEqStr tt "monthly"
  then [] else [VErr.badTriggerType n (pyStr tt)]

/-- The date-pattern error (only a present string value is pattern
checked). -/
def dateFormatErrors (t : TrigCfg) (n : Nat) : List VErr :=
  let v := t.start_date.getD (PyVal.str "")
  match v with
  | .str s => if matchesDatePattern s then [] else [VErr.badDateFormat n s]
  | _ => []

/-- The time-pattern error. -/
def timeFormatErrors (t : TrigCfg) (n : Nat) : List VErr :=
  let v := t.start_time.getD (PyVal.str "")
  match v with
  | .str s => if matchesTimePattern s then [] else [VErr.badTimeFormat n s]
  | _ => []

/-- The strptime calendar-validity error: attempted only when both values
are strings, reported when either parse raises ValueError. -/
def dateTimeErrors (t : TrigCfg) (n : Nat) : List VErr :=
  let dv := t.start_date.getD (PyVal.str "")
  let tv := t.start_time.getD (PyVal.str "")
  match dv, tv with
  | .str ds, .str ts =>
    if (strptimeYmd ds).isNone || (strptimeHM ts).isNone
    then [VErr.badDateTime n ds ts] else []
  | _, _ => []

/-- The month-day list errors: a present list value is element checked when
non-empty or when the run-on-last-day flag is truthy, and an empty list
with the flag unset is reported for a monthly trigger. -/
def monthDayErrors (t : TrigCfg) (n : Nat) : List VErr :=
  match t.days_of_month with
  | Option.none => []
  | some v =>
    match v with
    | .list l =>
      if 0 < l.length || pyTruthy (t.run_on_last_day_of_month.getD PyVal.none)
      then
        (l.filter (fun day => !(validMonthDays.contains (pyStr day)))).map
          (fun day => VErr.badMonthDay n (pyStr day))
      else if pyEqStr (t.trigger_type.getD (PyVal.str "")) "monthly"
      then [VErr.emptyMonthDays n] else []
    | _ => []

/-- The weekday list errors. -/
def weekDayErrors (t : TrigCfg) (n : Nat) : List VErr :=
  match t.days_of_week with
  | Option.none => []
  | some v =>
    match v with
    | .list l =>
      if 0 < l.length then
        (l.filter (fun day => !(match day with
          | .str s => validWeekDays.contains s
          | _ => false))).map (fun day => VErr.badWeekDay n (pyStr day))
      else if pyEqStr (t.trigger_type.getD (PyVal.str "")) "weekly"
      then [VErr.emptyWeekDays n] else []
    | _ => []

/-- The month list errors. -/
def monthErrors (t : TrigCfg) (n : Nat) : List VErr :=
  match t.months_of_year with
  | Option.none => []
  | some v =>
    match v with
    | .list l =>
      if 0 < l.length || pyTruthy (t.set_all_months.getD PyVal.none) then
        (l.filter (fun m => !(match m with
          | .str s => validMonths.contains s
          | _ => false))).map (fun m => VErr.badMonth n (pyStr m))
      else if pyEqStr (t.trigger_type.getD (PyVal.str "")) "monthly"
      then [VErr.emptyMonths n] else []
    | _ => []

/-- Embedding of _validate_single_trigger: the error list in append
order. -/
def validate_single_trigger (t : TrigCfg) (n : Nat) : List VErr :=
  requiredKeyErrors t n ++ triggerTypeErrors t n ++ dateFormatErrors t n
    ++ timeFormatErrors t n ++ dateTimeErrors t n ++ monthDayErrors t n
    ++ weekDayErrors t n ++ monthErrors t n

/-- The per-trigger validation loop of check_required_params, numbering
triggers from 1. -/
def validateAll : Nat → List TrigCfg → List VErr
  | _, [] => []
  | i, t :: rest => validate_single_trigger t i ++ validateAll (i + 1) rest

/-- Embedding of check_required_params on the triggers list: False for a
missing or empty trigger list, else True exactly when no trigger produced
an error. -/
def check_required_params (triggers : List TrigCfg) : Bool :=
  if triggers.isEmpty then false
  else (validateAll 1 triggers).isEmpty

/-- The exact message text of the empty-month-day rejection (the one
message whose only interpolation is the trigger number). -/
def VErr.message : VErr → String
  | .emptyMonthDays n =>
    "Триггер " ++ natStr n ++ ": Пустой список дней месяца. "
      ++ "Ожидается число от 1 до 31 или \"Last\"."
  | .emptyWeekDays n => "Триггер " ++ natStr n ++ ": Пустой список дней недели. "
  | .emptyMonths n => "Триггер " ++ natStr n ++ ": Пустой список месяцев. "
  | .missingParam n k =>
    "Триггер " ++ natStr n ++ ": Отсутствует обязательный параметр: " ++ k
  | .badTriggerType n s => "Триггер " ++ natStr n ++ ": Неверный тип триггера: " ++ s ++ ". "
  | .badDateFormat n s =>
    "Триггер " ++ natStr n ++ ": Неверный формат даты: " ++ s ++ ". Ожидается ГГГГ-ММ-ДД."
  | .badTimeFormat n s =>
    "Триггер " ++ natStr n ++ ": Неверный формат времени: " ++ s ++ ". Ожидается ЧЧ:ММ."
  | .badDateTime n ds ts =>
    "Триггер " ++ natStr n ++ ": Некорректная дата или время: " ++ ds ++ " " ++ ts
  | .badMonthDay n s =>
    "Триггер " ++ natStr n ++ ": Некорректный день месяца: " ++ s
      ++ ". Ожидается число от 1 до 31 или \"Last\"."
  | .badWeekDay n s => "Триггер " ++ natStr n ++ ": Некорректный день недели: " ++ s ++ ". "
  | .badMonth n s => "Триггер " ++ natStr n ++ ": Некорректный месяц: " ++ s ++ ". "

/-- Helper: under the C9 hypotheses the month-day section reports exactly
the empty-month-day rejection. -/
theorem monthDayErrors_monthly_empty (t : TrigCfg) (n : Nat)
    (htype : t.trigger_type = some (PyVal.str "monthly"))
    (hdays : t.days_of_month = some (PyVal.list []))
    (hflag : pyTruthy (t.run_on_last_day_of_month.getD PyVal.none) = false) :
    monthDayErrors t n = [VErr.emptyMonthDays n] := by
  unfold monthDayErrors
  rw [hdays]
  show (if 0 < ([] : List PyVal).length
      || pyTruthy (t.run_on_last_day_of_month.getD PyVal.none) then _
    else if pyEqStr (t.trigger_type.getD (PyVal.str "")) "monthly"
    then [VErr.emptyMonthDays n] else []) = _
  rw [hflag, htype]
  rfl

/-- Helper: a list containing a trigger that validates non-empty flunks the
whole validation loop, whatever the trigger's position. -/
theorem validateAll_ne_nil_of_mem {t : TrigCfg} {ts : List TrigCfg}
    (hmem : t ∈ ts) (hne : ∀ i : Nat, validate_single_trigger t i ≠ []) :
    ∀ i : Nat, validateAll i ts ≠ [] := by
  induction ts with
  | nil => exact absurd hmem (List.not_mem_nil _)
  | cons c rest ih =>
    intro i
    rcases List.mem_cons.mp hmem with heq | hmem'
    · subst heq
      unfold validateAll
      intro hcontra
      exact hne i (List.append_eq_nil.mp hcontra).1
    · unfold validateAll
      intro hcontra
      exact ih hmem' (i + 1) (List.append_eq_nil.mp hcontra).2

/-- C9: a monthly trigger with an empty (present) month-day list and the
run-on-last-day flag unset is rejected: validation emits the
empty-month-day error - whose message text names the violated field, the
month-day list - the trigger's error list is non-empty, and
check_required_params returns False for any trigger list containing it. -/
theorem c9_monthly_empty_month_days (t : TrigCfg) (n : Nat)
    (htype : t.trigger_type = some (PyVal.str "monthly"))
    (hdays : t.days_of_month = some (PyVal.list []))
    (hflag : pyTruthy (t.run_on_last_day_of_month.getD PyVal.none) = false) :
    VErr.emptyMonthDays n ∈ validate_single_trigger t n ∧
    validate_single_trigger t n ≠ [] ∧
    (VErr.emptyMonthDays n).message
      = "Триггер " ++ natStr n
        ++ ": Пустой список дней месяца. Ожидается число от 1 до 31 или \"Last\"." ∧
    (∀ ts : List TrigCfg, t ∈ ts → check_required_params ts = false) := by
  have hmem : ∀ i : Nat, VErr.emptyMonthDays i ∈ validate_single_trigger t i := by
    intro i
    unfold validate_single_trigger
    have h := monthDayErrors_monthly_empty t i htype hdays hflag
    refine List.mem_append.mpr (Or.inl ?_)
    refine List.mem_append.mpr (Or.inl ?_)
    refine List.mem_append.mpr (Or.inr ?_)
    rw [h]
    exact List.mem_singleton.mpr rfl
  have hne : ∀ i : Nat, validate_single_trigger t i ≠ [] :=
    fun i => List.ne_nil_of_mem (hmem i)
  refine ⟨hmem n, hne n, ?_, ?_⟩
  · show "Триггер " ++ natStr n ++ ": Пустой список дней месяца. "
        ++ "Ожидается число от 1 до 31 или \"Last\"." = _
    rw [String.append_assoc]
    rfl
  · intro ts hts
    unfold check_required_params
    have hts_ne : ts.isEmpty = false := by
      cases ts with
      | nil => exact absurd hts (List.not_mem_nil _)
      | cons a b => rfl
    rw [hts_ne]
    simp only [Bool.false_eq_true, if_false]
    have := validateAll_ne_nil_of_mem hts hne 1
    exact List.isEmpty_eq_false.mpr this

/-- Witness for c9_monthly_empty_month_days at a concrete monthly trigger
with an empty month-day list. -/
theorem c9_monthly_empty_month_days_witness :
    VErr.emptyMonthDays 1 ∈ validate_single_trigger
      { trigger_type := some (PyVal.str "monthly"),
        start_date := some (PyVal.str "2025-01-01"),
        start_time := some (PyVal.str "10:00"),
        days_of_month := some (PyVal.list []) } 1 ∧
    check_required_params
      [{ trigger_type := some (PyVal.str "monthly"),
         start_date := some (PyVal.str "2025-01-01"),
         start_time := some (PyVal.str "10:00"),
         days_of_month := some (PyVal.list []) }] = false := by
  have h := c9_monthly_empty_month_days
    { trigger_type := some (PyVal.str "monthly"),
      start_date := some (PyVal.str "2025-01-01"),
      start_time := some (PyVal.str "10:00"),
      days_of_month := some (PyVal.list []) } 1 rfl rfl rfl
  exact ⟨h.1, h.2.2.2 _ (List.mem_singleton.mpr rfl)⟩

/-! ### Trigger construction (claim C3):
_create_single_trigger and the trigger loop of create_or_update_task -/

/-- The Python exceptions the trigger paths can raise; the loop in
create_or_update_task catches com_error, ValueError, KeyError and
AttributeError but not TypeError. -/
inductive PyExc where
  | typeError
  | valueError
  | keyError
  | comError
  | attributeError
deriving DecidableEq, Repr

/-- Whether the except clause of the trigger loop catches the exception. -/
def caughtByTriggerLoop : PyExc → Bool
  | .typeError => false
  | _ => true

/-- A native trigger as configured through the COM object: the fields the
code assigns, each optional because an assignment may not happen. -/
structure NativeTrigger where
  kind : String
  startBoundary : Option String := none
  daysInterval : Option PyVal := none
  weeksInterval : Option PyVal := none
  daysOfWeek : Option Nat := none
  daysOfMonth : Option Nat := none
  monthsOfYear : Option Nat := none
  runOnLastDay : Option Bool := none
  repetitionInterval : Option PyVal := none
  repetitionDuration : Option String := none
  repetitionStop : Option Bool := none
  enabled : Option PyVal := none

/-- Embedding of DateFormatter.format_start_time_and_date with its default
-3 hour delta: strptime of a non-string raises TypeError, of an
unparseable string ValueError; the shifted wall clock is rendered as
HH:MM:SS and spliced between the interpolated start date, T and Z. -/
def format_start_time_and_date (start_time start_date : PyVal) :
    Except PyExc String :=
  match start_time with
  | .str s =>
    match strptimeHM s with
    | some (h, m) =>
      let tot : Int := (h : Int) * 60 + (m : Int) - 3 * 60
      let t : Int := tot.emod 1440
      .ok (pyStr start_date ++ "T" ++ padNum 2 (t.toNat / 60) ++ ":"
        ++ padNum 2 (t.toNat % 60) ++ ":00" ++ "Z")
    | Option.none => .error .valueError
  | _ => .error .typeError

/-- The weekday name-to-ordinal map of DateConverter.Weekday. -/
def weekdayNum (s : String) : Option Nat :=
  if s == "Понедельник" then some 2
  else if s == "Вторник" then some 3
  else if s == "Среда" then some 4
  else if s == "Четверг" then some 5
  else if s == "Пятница" then some 6
  else if s == "Суббота" then some 7
  else if s == "Воскресенье" then some 1
  else none

/-- The month name-to-ordinal map of DateConverter.Month. -/
def monthNum (s : String) : Option Nat :=
  if s == "Январь" then some 1
  else if s == "Февраль" then some 2
  else if s == "Март" then some 3
  else if s == "Апрель" then some 4
  else if s == "Май" then some 5
  else if s == "Июнь" then some 6
  else if s == "Июль" then some 7
  else if s == "Август" then some 8
  else if s == "Сентябрь" then some 9
  else if s == "Октябрь" then some 10
  else if s == "Ноябрь" then some 11
  else if s == "Декабрь" then some 12
  else none

/-- Embedding of the name-to-number loops of DateConverter (get_day_num and
get_month_num): an enum lookup of an unknown name raises KeyError, of an
unhashable value TypeError; iterating a string looks its characters up,
iterating a non-iterable raises TypeError. -/
def convertNames (lookup : String → Option Nat) : PyVal →
    Except PyExc (List Nat)
  | .list l =>
    l.foldlM (fun acc v =>
      match v with
      | PyVal.str s =>
        match lookup s with
        | some k => .ok (acc ++ [k])
        | Option.none => .error PyExc.keyError
      | PyVal.list _ => .error PyExc.typeError
      | _ => .error PyExc.keyError) []
  | .str s =>
    s.toList.foldlM (fun acc c =>
      match lookup (String.singleton c) with
      | some k => .ok (acc ++ [k])
      | Option.none => .error PyExc.keyError) []
  | _ => .error .typeError

/-- Embedding of days_of_month_to_bitmask as the monthly configuration
calls it, on the raw configured value: an empty list is the False sentinel
(0), integer days from 1 sum their flags, a Python bool True counts as the
integer 1; iterating a non-list or exponentiating a non-integer raises
TypeError.  (A nonpositive integer day would produce a Python float, which
no caller can supply through the JSON parser and is modelled as the same
error case.) -/
def days_of_month_bitmask_dyn : PyVal → Except PyExc Nat
  | .list l =>
    if l.isEmpty then .ok 0
    else
      l.foldlM (fun acc v =>
        match v with
        | PyVal.int (Int.ofNat d) =>
          if 1 ≤ d then .ok (acc + 2 ^ (d - 1)) else .error PyExc.typeError
        | PyVal.bool true => .ok (acc + 1)
        | _ => .error PyExc.typeError) 0
  | _ => .error .typeError

/-- Embedding of _create_single_trigger.  The ok-none result is the
reported-and-skipped early return (missing, non-string or unrecognized
trigger type); ok-some carries the configured native trigger; error is a
raised exception. -/
def create_single_trigger (cfg : TrigCfg) :
    Except PyExc (Option NativeTrigger) := do
  let tt := cfg.trigger_type.getD PyVal.none
  if !pyTruthy tt || !pyIsStr tt then
    return none
  let name := match tt with | .str s => s | _ => ""
  if !(name == "one_time" || name == "daily" || name == "weekly"
      || name == "monthly") then
    return none
  let sb ← format_start_time_and_date (cfg.start_time.getD (PyVal.str "00:00"))
    (cfg.start_date.getD (PyVal.str "2025-01-01"))
  let dowRaw := cfg.days_of_week.getD (PyVal.list [])
  let moyRaw := cfg.months_of_year.getD (PyVal.list [])
  let dowInt ← if pyTruthy dowRaw then convertNames weekdayNum dowRaw
    else pure []
  let moyInt ← if pyTruthy moyRaw then convertNames monthNum moyRaw
    else pure []
  let base : NativeTrigger := { kind := name }
  let configured : NativeTrigger ←
    if name == "daily" then
      pure { base with
        startBoundary := some sb
        daysInterval := some (cfg.interval_week_days.getD (PyVal.int 1)) }
    else if name == "weekly" then
      pure { base with
        startBoundary := some sb
        weeksInterval := some (cfg.interval_week_days.getD (PyVal.int 1))
        daysOfWeek := some (days_of_week_to_bitmask dowInt) }
    else if name == "monthly" then do
      let dom ← days_of_month_bitmask_dyn (cfg.days_of_month.getD (PyVal.list []))
      pure { base with
        startBoundary := some sb
        daysOfMonth := some dom
        monthsOfYear := some (months_of_year_to_bitmask moyInt) }
    else
      pure base
  let withSpecial : NativeTrigger :=
    if name == "monthly" then
      let t1 := if pyTruthy (cfg.run_on_last_day_of_month.getD PyVal.none)
        then { configured with runOnLastDay := some true } else configured
      if pyTruthy (cfg.set_all_months.getD PyVal.none)
      then { t1 with monthsOfYear := some 0xFFF } else t1
    else configured
  let rep := cfg.repetition_interval.getD (PyVal.str "")
  let withRep : NativeTrigger :=
    if pyTruthy rep then
      { withSpecial with
        repetitionInterval := some rep
        repetitionDuration := some "P1D"
        repetitionStop := some false }
    else withSpecial
  return some { withRep with enabled := some (cfg.enabled.getD (PyVal.bool true)) }

/-- The trigger loop of create_or_update_task: a normal return of
_create_single_trigger - including the reported-and-skipped early return -
increments successful_triggers; a caught exception is logged and skipped;
an uncaught exception propagates. -/
def runTriggerLoop : List TrigCfg → Nat → Except PyExc Nat
  | [], succ => .ok succ
  | c :: rest, succ =>
    match create_single_trigger c with
    | .ok _ => runTriggerLoop rest (succ + 1)
    | .error e =>
      if caughtByTriggerLoop e then runTriggerLoop rest succ else .error e

/-- Embedding of create_or_update_task from the trigger loop on: False
when the loop counted zero successes, else the outcome of registering the
task (registerOk abstracts whether RegisterTaskDefinition raises
com_error, which is external state). -/
def create_or_update_task (triggers : List TrigCfg) (registerOk : Bool) :
    Except PyExc Bool :=
  match runTriggerLoop triggers 0 with
  | .error e => .error e
  | .ok succ =>
    if succ = 0 then .ok false
    else if registerOk then .ok true else .ok false

/-- C3 evaluation at the failing input: a single trigger dict with no type
is reported and skipped without creating any native trigger (the ok-none
outcome), yet the loop counts it as a success and create_or_update_task
returns True with a successful registration - where the claim requires the
rejected trigger not to count and the call to return False. -/
theorem c3_skipped_trigger_counted :
    create_single_trigger {} = .ok Option.none ∧
    runTriggerLoop [{}] 0 = .ok 1 ∧
    create_or_update_task [{}] true = .ok true := by
  refine ⟨rfl, rfl, rfl⟩

end AutomationReports
